import Mathlib

/-!
Verification of the core reader in `uproot/newrootio.py` (file/directory
bootstrap, streamer metamodel, tagged object deserializer).

Conventions of the shallow embedding:

* A byte source is a total function `Nat → Nat`; each read takes the byte
  modulo 256, so a source behaves like an unbounded array of bytes.
* Cursor indices are natural numbers (they are file offsets); cursor origins
  may be negative (`origin = -fKeylen` inside decompressed windows) and are
  integers, as are all quantities obtained by subtracting an origin.
* The code is Python 2 (byte strings and `str` coincide there, which is the
  mode in which the comparisons such as `fTypeName == "Bool_t"` and the
  generated-class machinery operate); byte strings are `List Nat`,
  and names already decoded to text are `List Char`.
* Fallible code returns `Except PyErr`; the constructors mirror the Python
  exception classes the source raises.
-/

/-- Python exceptions raised by the source. -/
inductive PyErr where
  | valueError
  | notImplementedError
  | ioError
  | assertionError
  | typeError
  | attributeError
  | keyError (name : List Char)
  deriving DecidableEq

/-- A byte source: the byte stored at each absolute offset. -/
def Src : Type := Nat → Nat

/-- Byte at offset `i`, reduced to an actual byte value. -/
def byteAt (s : Src) (i : Nat) : Nat := s i % 256

/-- A byte source given by a finite list of bytes (zero beyond the end). -/
def srcOf (l : List Nat) : Src := fun i => l.getD i 0

/-- Big-endian unsigned value of the `k` bytes starting at offset `i`. -/
def readBE (s : Src) (i : Nat) (k : Nat) : Nat :=
  (List.range k).foldl (fun acc j => acc * 256 + byteAt s (i + j)) 0

/-- Two's-complement reinterpretation of a `w`-bit unsigned value. -/
def toSigned (w : Nat) (v : Nat) : Int :=
  if v < 2 ^ (w - 1) then (v : Int) else (v : Int) - 2 ^ w

/-- Signed 32-bit big-endian value at offset `i`. -/
def readI32V (s : Src) (i : Nat) : Int := toSigned 32 (readBE s i 4)

/-- Signed 16-bit big-endian value at offset `i`. -/
def readI16V (s : Src) (i : Nat) : Int := toSigned 16 (readBE s i 2)

/-- Signed 64-bit big-endian value at offset `i`. -/
def readI64V (s : Src) (i : Nat) : Int := toSigned 64 (readBE s i 8)

/-- The `k` bytes starting at offset `i`, as a list. -/
def bytesAt (s : Src) (i : Nat) (k : Nat) : List Nat :=
  (List.range k).map (fun j => byteAt s (i + j))

/-- List of `n` big-endian `i32` values starting at offset `i`
(the semantics of `cursor.array(source, n, ">i4")`). -/
def readI32Arr (s : Src) (i : Nat) (n : Nat) : List Int :=
  (List.range n).map (fun j => readI32V s (i + 4 * j))

/-- Modelled from the spec: `Cursor.string` (the `Cursor` class lives outside
`src/`).  A length-prefixed byte string: if the first byte is `0xFF` the next
four bytes are a big-endian `u32` length, otherwise the first byte is the
length; the payload follows verbatim.  Returns the payload and the offset just
past it. -/
def readStr (s : Src) (i : Nat) : List Nat × Nat :=
  let n := byteAt s i
  if n = 255 then
    let m := readBE s (i + 1) 4
    (bytesAt s (i + 5) m, i + 5 + m)
  else
    (bytesAt s (i + 1) n, i + 1 + n)

/-- Byte string literal helper (Python 2 `bytes` = `str`). -/
def bstr (s : String) : List Nat := s.toList.map Char.toNat

/-- kByteCountMask = 0x40000000, value from the spec (`uproot.const` is
outside `src/`). -/
def kByteCountMask : Nat := 0x40000000

/-- kNewClassTag = 0xFFFFFFFF (spec value). -/
def kNewClassTag : Nat := 0xFFFFFFFF

/-- kClassMask = 0x80000000 (spec value). -/
def kClassMask : Nat := 0x80000000

/-- kMapOffset = 2 (spec value). -/
def kMapOffset : Nat := 2

/-- `_startcheck(source, cursor)`: reads the 6-byte record header
`(cnt : u32, vers : u16)` at `i` and returns `(start, cnt, vers, index')`
where `start = i`, `cnt = (raw & ~kByteCountMask) + 4` (the raw count is a
`u32`, so clearing bit 30 is `&&& 0xBFFFFFFF`) and `index' = i + 6`. -/
def startcheck (s : Src) (i : Nat) : Nat × Nat × Nat × Nat :=
  (i, (readBE s i 4 &&& 0xBFFFFFFF) + 4, readBE s (i + 4) 2, i + 6)

/-- `_endcheck(start, cursor, cnt)`: raises `ValueError` unless
`cursor.index - start == cnt`. -/
def endcheck (start : Nat) (index : Nat) (cnt : Nat) : Except PyErr Unit :=
  if (index : Int) - (start : Int) ≠ (cnt : Int) then .error .valueError
  else .ok ()

/-- kIsOnHeap = 0x01000000 (spec value). -/
def kIsOnHeap : Nat := 0x01000000

/-- kIsReferenced = 0x00000010 (spec value). -/
def kIsReferenced : Nat := 0x00000010

/-- kByteCountVMask = 0x4000 (spec value). -/
def kByteCountVMask : Nat := 0x4000

/-- `_skiptobj(source, cursor)`: reads `version : i16` (skipping 4 bytes when
bit `kByteCountVMask` of the version is set — testing the bit on the raw
16-bit pattern agrees with the source's int64 bit test), then
`fUniqueID, fBits : u32, u32`; `fBits` is OR-ed with `kIsOnHeap`, and 2 bytes
are skipped when `fBits & kIsReferenced` is set.  Returns the new index. -/
def skiptobj (s : Src) (i : Nat) : Nat :=
  let i1 := if readBE s i 2 &&& kByteCountVMask ≠ 0 then i + 2 + 4 else i + 2
  let fBits := readBE s (i1 + 4) 4 ||| kIsOnHeap
  if fBits &&& kIsReferenced ≠ 0 then i1 + 8 + 2 else i1 + 8

/-- `_nametitle(source, cursor)`: a framed record containing `_skiptobj`
followed by two length-prefixed strings. -/
def nametitle (s : Src) (i : Nat) : Except PyErr ((List Nat × List Nat) × Nat) :=
  let i2 := skiptobj s (startcheck s i).2.2.2
  let i3 := (readStr s i2).2
  let i4 := (readStr s i3).2
  match endcheck i i4 (startcheck s i).2.1 with
  | .error e => .error e
  | .ok _ => .ok (((readStr s i2).1, (readStr s i3).1), i4)

/-- The fields of a `TStreamerElement` read by
`TStreamerElement._readinto` (`fXmin`, `fXmax`, `fFactor` are kept as raw
64-bit patterns; their floating-point meaning plays no role here). -/
structure TSE where
  fName : List Nat
  fTitle : List Nat
  fType : Int
  fSize : Int
  fArrayLength : Int
  fArrayDim : Int
  fMaxIndex : List Int
  fTypeName : List Nat
  fXmin : Nat
  fXmax : Nat
  fFactor : Nat
  deriving DecidableEq

/-- The `fMaxIndex` block of `TStreamerElement._readinto`: when the record
version is 1, an `i32` count `n` followed by `n` big-endian `i32` values;
otherwise exactly 5 big-endian `i32` values.  Returns the values and the
offset just past them. -/
def tseMaxIndex (s : Src) (vers : Nat) (i : Nat) : List Int × Nat :=
  if vers = 1 then
    (readI32Arr s (i + 4) (readI32V s i).toNat,
     i + 4 + 4 * (readI32V s i).toNat)
  else
    (readI32Arr s i 5, i + 20)

/-- The `fType` normalization of `TStreamerElement._readinto`: if
`fType == 11` and `fTypeName` is `Bool_t` or `bool`, `fType` becomes 18. -/
def tseNorm (t : Int) (tn : List Nat) : Int :=
  if t = 11 ∧ (tn = bstr "Bool_t" ∨ tn = bstr "bool") then 18 else t

/-- `TStreamerElement._readinto`: framing, `_nametitle`, the four `i32`
fields `(fType, fSize, fArrayLength, fArrayDim)`, the `fMaxIndex` block,
`fTypeName`, the `fType` normalization, the version-3 `(fXmin, fXmax,
fFactor)` doubles, and the end check. -/
def tseReadinto (s : Src) (i : Nat) : Except PyErr (TSE × Nat) :=
  let cnt := (startcheck s i).2.1
  let vers := (startcheck s i).2.2.1
  match nametitle s (startcheck s i).2.2.2 with
  | .error e => .error e
  | .ok nt =>
    let i2 := nt.2
    let t := readI32V s i2
    let i3 := (tseMaxIndex s vers (i2 + 16)).2
    let tn := (readStr s i3).1
    let i4 := (readStr s i3).2
    let i5 := if vers = 3 then i4 + 24 else i4
    match endcheck i i5 cnt with
    | .error e => .error e
    | .ok _ =>
      .ok (⟨nt.1.1, nt.1.2, tseNorm t tn,
            readI32V s (i2 + 4), readI32V s (i2 + 8), readI32V s (i2 + 12),
            (tseMaxIndex s vers (i2 + 16)).1, tn,
            if vers = 3 then readBE s i4 8 else 0,
            if vers = 3 then readBE s (i4 + 8) 8 else 0,
            if vers = 3 then readBE s (i4 + 16) 8 else 0⟩, i5)

/-- Concrete `TStreamerElement` record (version 2, `fType = 11`,
`fTypeName = "bool"`) used to witness the element reader. -/
def tseBytes : List Nat :=
  [0, 0, 0, 62, 0, 2,
   0, 0, 0, 15, 0, 1,
   0, 0, 0, 0, 0, 0, 0, 0, 0, 0,
   1, 65, 0,
   0, 0, 0, 11, 0, 0, 0, 1, 0, 0, 0, 0, 0, 0, 0, 0,
   0, 0, 0, 0, 0, 0, 0, 0, 0, 0, 0, 0, 0, 0, 0, 0, 0, 0, 0, 0,
   4, 98, 111, 111, 108]

/-- `TString._readinto`: builds a `TString` from `cursor.string` and returns
it (the caller `ROOTObject.read` ignores this return value). -/
def tstringReadintoRet (s : Src) (i : Nat) : List Nat × Nat := readStr s i

/-- `TString.read`, inherited from `ROOTObject.read`: allocate a blank
instance (`cls.__new__(cls)`, which for the `str` subclass `TString` is the
empty string), call `_readinto` — whose return value is discarded — and
return the blank instance. -/
def tstringRead (s : Src) (i : Nat) : List Nat × Nat :=
  ([], (tstringReadintoRet s i).2)

/-- The lazily materialized read source of a `TKey` (`self._source` and
`self._cursor` at the end of `TKey._readinto`): either a
`CompressedSource(compression, source, Cursor(fSeekKey + fKeylen),
fNbytes - fKeylen, fObjlen)` with `Cursor(0, origin=-fKeylen)`, or the plain
file source with `Cursor(fSeekKey + fKeylen, origin=fSeekKey)`. -/
inductive SrcSel where
  | compressed (compression : Int) (windowStart : Int) (compressedBytes : Int)
      (objLen : Int) (index : Int) (origin : Int)
  | uncompressed (index : Int) (origin : Int)
  deriving DecidableEq

/-- Header fields of a `TKey` as read by `TKey._readinto`. -/
structure TKeyRec where
  fNbytes : Int
  fVersion : Int
  fObjlen : Int
  fDatime : Nat
  fKeylen : Int
  fCycle : Int
  fSeekKey : Int
  fSeekPdir : Int
  fClassName : List Nat
  fName : List Nat
  fTitle : List Nat
  deriving DecidableEq

/-- The payload-source selection at the end of `TKey._readinto`:
compressed iff `fObjlen != fNbytes - fKeylen`. -/
def tkeySel (compression fNbytes fObjlen fKeylen fSeekKey : Int) : SrcSel :=
  if fObjlen ≠ fNbytes - fKeylen then
    .compressed compression (fSeekKey + fKeylen) (fNbytes - fKeylen) fObjlen
      0 (-fKeylen)
  else
    .uncompressed (fSeekKey + fKeylen) fSeekKey

/-- `TKey._readinto`: the fixed fields `(fNbytes : i32, fVersion : i16,
fObjlen : i32, fDatime : u32, fKeylen : i16, fCycle : i16)`, the 32- or
64-bit seek fields (by `fVersion <= 1000`), the three strings, the
NUL-terminator assertions of the top directory (`fSeekPdir == 0`), and the
payload-source selection. -/
def tkeyReadinto (compression : Int) (s : Src) (i : Nat) :
    Except PyErr ((TKeyRec × SrcSel) × Nat) :=
  let fNbytes := readI32V s i
  let fVersion := readI16V s (i + 4)
  let fObjlen := readI32V s (i + 6)
  let fDatime := readBE s (i + 10) 4
  let fKeylen := readI16V s (i + 14)
  let fCycle := readI16V s (i + 16)
  let fSeekKey := if fVersion ≤ 1000 then readI32V s (i + 18)
                  else readI64V s (i + 18)
  let fSeekPdir := if fVersion ≤ 1000 then readI32V s (i + 22)
                   else readI64V s (i + 26)
  let i1 := if fVersion ≤ 1000 then i + 26 else i + 34
  let i2 := (readStr s i1).2
  let i3 := (readStr s i2).2
  let i4 := if fSeekPdir = 0 then i3 + 1 else i3
  let i5 := (readStr s i4).2
  let i6 := if fSeekPdir = 0 then i5 + 1 else i5
  if fSeekPdir = 0 ∧ (byteAt s i3 ≠ 0 ∨ byteAt s i5 ≠ 0) then
    .error .assertionError
  else
    .ok ((⟨fNbytes, fVersion, fObjlen, fDatime, fKeylen, fCycle,
           fSeekKey, fSeekPdir,
           (readStr s i1).1, (readStr s i2).1, (readStr s i4).1⟩,
          tkeySel compression fNbytes fObjlen fKeylen fSeekKey), i6)

/-- Concrete `TKey` header (uncompressed: `fObjlen = fNbytes - fKeylen`)
used to witness the payload-source selection. -/
def tkeyBytes : List Nat :=
  [0, 0, 0, 100,
   0, 1,
   0, 0, 0, 50,
   0, 0, 0, 0,
   0, 50,
   0, 1,
   0, 0, 0, 0,
   0, 0, 0, 7,
   1, 65, 1, 66, 1, 67]

/-- Compression-independent shape of a payload-source selection: the
`(index, origin)` cursor parameters when the key is read uncompressed, and
`none` when it goes through a decompression window. -/
def selShape : SrcSel → Option (Int × Int)
  | .uncompressed a b => some (a, b)
  | .compressed _ _ _ _ _ _ => none

/-- The seed class map of `_defineclasses` (names of the classes every
file context knows before synthesis adds streamer-described ones). -/
def bootstrapClasses : List (List Nat) :=
  [bstr "TObject", bstr "TNamed", bstr "TString", bstr "TObjArray",
   bstr "TList", bstr "TArrayC", bstr "TArrayS", bstr "TArrayI",
   bstr "TArrayL", bstr "TArrayL64", bstr "TArrayF", bstr "TArrayD"]

/-- Outcome of a successful `TKey.get` dispatch. -/
inductive KeyGetOutcome where
  | directory
  | classRead (cname : List Nat)
  deriving DecidableEq

/-- `TKey.get`: `TDirectory` recurses into the directory parser; a class
name found in `context.classes` dispatches to that factory's `read`; any
other class name executes `Undefined(self._source, self._cursor.copied(),
self._context)` — and `Undefined` defines neither `__init__` nor `__new__`,
so this three-argument construction raises `TypeError` in Python
(`Undefined.read` would fail the same way: `Undefined._readinto` is declared
without its `self` parameter, so the four-argument call in
`ROOTObject.read` is also a `TypeError`). -/
def tkeyGet (classes : List (List Nat)) (cname : List Nat) :
    Except PyErr KeyGetOutcome :=
  if cname = bstr "TDirectory" then .ok .directory
  else if cname ∈ classes then .ok (.classRead cname)
  else .error .typeError

/-- The body of `Undefined._readinto` as written in the source, were its
parameters bound as the skip logic intends: `_startcheck`, then
`cursor.skip(cnt - 2)`, then `_endcheck`.  (Note the skip of `cnt - 2`
bytes after the 6-byte header, which overshoots the record end by 4.) -/
def undefinedReadintoBody (s : Src) (i : Nat) : Except PyErr Nat :=
  let cnt := (startcheck s i).2.1
  let i1 := (startcheck s i).2.2.2 + (cnt - 2)
  match endcheck i i1 cnt with
  | .error e => .error e
  | .ok _ => .ok i1

/-- A factory value: a class known to the context, or the `Undefined`
fallback. -/
inductive Fct where
  | cls (name : List Nat)
  | undef
  deriving DecidableEq

/-- A value stored in the cursor's per-read reference table: a factory or a
previously-read object (objects are opaque identifiers here). -/
inductive RefVal where
  | fctV (f : Fct)
  | objV (o : Nat)
  deriving DecidableEq

/-- The cursor's reference table (`cursor.refs`), modelled as the Python
dict it is: a lookup function together with the number of stored keys. -/
structure RefTab where
  find : Int → Option RefVal
  size : Nat

/-- Dict update: replace-or-insert. -/
def RefTab.set (t : RefTab) (k : Int) (v : RefVal) : RefTab :=
  ⟨fun j => if j = k then some v else t.find j,
   if (t.find k).isSome then t.size else t.size + 1⟩

/-- The empty reference table a fresh top-level read starts from. -/
def emptyRefs : RefTab := ⟨fun _ => none, 0⟩

/-- Cursor state threaded through `_readanyref`: index, origin and the
reference table. -/
structure RCur where
  index : Int
  origin : Int
  refs : RefTab

/-- Modelled from the spec: `Cursor.cstring` (the `Cursor` class lives
outside `src/`) — bytes up to but not including the NUL, consuming the NUL;
`fuel` bounds the scan. -/
def cstringGo (s : Src) (i : Nat) : Nat → List Nat × Nat
  | 0 => ([], i)
  | fuel + 1 =>
    if byteAt s i = 0 then ([], i + 1)
    else
      ((byteAt s i) :: (cstringGo s (i + 1) fuel).1, (cstringGo s (i + 1) fuel).2)

/-- Steps 1-3 of `_readanyref`: read `bcnt : u32`; when its
`kByteCountMask` bit is clear or it equals `kNewClassTag` it is a raw tag
(`vers = 0`, `tag = bcnt`, `bcnt = 0`); otherwise `vers = 1`,
`start = index - origin` after `bcnt`, and `tag : u32` follows.  Returns
`(vers, start, tag, bcnt, index')`. -/
def anyRefDecode (s : Src) (c : RCur) : Nat × Int × Nat × Nat × Int :=
  let bcnt := readBE s c.index.toNat 4
  if bcnt &&& kByteCountMask = 0 ∨ bcnt = kNewClassTag then
    (0, 0, bcnt, 0, c.index + 4)
  else
    (1, c.index + 4 - c.origin, readBE s (c.index + 4).toNat 4, bcnt,
     c.index + 8)

/-- Whether a reference-table value is one of `context.classes.values()`
(the `Undefined` fallback is not). -/
def isContextFactory (classes : List (List Nat)) : Fct → Bool
  | .cls n => n ∈ classes
  | .undef => false

/-- `_readanyref(source, cursor, context)`.  `readObj` abstracts
`fct.read(source, cursor, context)`, the recursive object read through a
factory (it returns the new object and the advanced cursor); `classes` is
the key set of `context.classes`; `fuel` bounds the C-string scan of the
new-class branch. -/
def readanyref (readObj : Fct → RCur → Except PyErr (Nat × RCur))
    (classes : List (List Nat)) (s : Src) (c : RCur) (fuel : Nat) :
    Except PyErr (Option RefVal × RCur) :=
  let beg := c.index - c.origin
  let vers := (anyRefDecode s c).1
  let start := (anyRefDecode s c).2.1
  let tag := (anyRefDecode s c).2.2.1
  let bcnt := (anyRefDecode s c).2.2.2.1
  let c1 : RCur := { c with index := (anyRefDecode s c).2.2.2.2 }
  if tag &&& kClassMask = 0 then
    if tag = 0 then .ok (none, c1)
    else if tag = 1 then .error .notImplementedError
    else
      match c1.refs.find (tag : Int) with
      | none => .ok (none, { c1 with index := c.origin + beg + (bcnt : Int) + 4 })
      | some v => .ok (some v, c1)
  else if tag = kNewClassTag then
    let cname := (cstringGo s c1.index.toNat fuel).1
    let c2 : RCur := { c1 with index := ((cstringGo s c1.index.toNat fuel).2 : Int) }
    let fct := if cname ∈ classes then Fct.cls cname else Fct.undef
    let c3 : RCur :=
      { c2 with refs := if vers > 0 then c2.refs.set (start + (kMapOffset : Int)) (.fctV fct)
                        else c2.refs.set ((c2.refs.size : Int) + 1) (.fctV fct) }
    match readObj fct c3 with
    | .error e => .error e
    | .ok or =>
      let c5 : RCur :=
        { or.2 with refs := if vers > 0 then or.2.refs.set (beg + (kMapOffset : Int)) (.objV or.1)
                            else or.2.refs.set ((or.2.refs.size : Int) + 1) (.objV or.1) }
      .ok (some (.objV or.1), c5)
  else
    match c1.refs.find ((tag &&& 0x7FFFFFFF : Nat) : Int) with
    | none => .error .ioError
    | some rv =>
      match rv with
      | .objV _ => .error .ioError
      | .fctV f =>
        if isContextFactory classes f then
          match readObj f c1 with
          | .error e => .error e
          | .ok or =>
            let c5 : RCur :=
              { or.2 with refs := if vers > 0 then or.2.refs.set (beg + (kMapOffset : Int)) (.objV or.1)
                                  else or.2.refs.set ((or.2.refs.size : Int) + 1) (.objV or.1) }
            .ok (some (.objV or.1), c5)
        else .error .ioError

/-- A trivial abstract factory read, used only to witness `_readanyref`
theorems on branches that never invoke it. -/
def dummyReadObj : Fct → RCur → Except PyErr (Nat × RCur) :=
  fun _ c => .ok (0, c)

/-- Bytes witnessing the unresolvable-tag skip: at offset 10, a framed
byte count `0x40000008` followed by the unknown tag 5. -/
def anyrefBytes : List Nat :=
  [0, 0, 0, 0, 0, 0, 0, 0, 0, 0, 64, 0, 0, 8, 0, 0, 0, 5]

/-- A key header as far as directory lookup is concerned: the key's name
(decoded text) and cycle number. -/
structure KeyHdr where
  fName : List Char
  fCycle : Int
  deriving DecidableEq

/-- A deserialized object as far as directory lookup is concerned: a
directory with its stored key list, each key paired with the object its
`get()` produces, or a non-directory object (an opaque identifier), on
which a further `get` raises `AttributeError`. -/
inductive RValue where
  | leaf (tag : Nat)
  | dir (keys : List (KeyHdr × RValue))

/-- Python `name.split(sep)` for a single-character separator: the chunks
between occurrences of `c` (never empty as a list of chunks). -/
def splitOnChar (c : Char) : List Char → List (List Char)
  | [] => [[]]
  | x :: xs =>
    match splitOnChar c xs with
    | [] => [[]]
    | r :: rs => if x = c then [] :: r :: rs else (x :: r) :: rs

/-- Digit-run parser used by `parseInt`. -/
def parseDigitsGo (acc : Nat) : List Char → Option Nat
  | [] => some acc
  | d :: ds =>
    if d.isDigit then parseDigitsGo (acc * 10 + (d.toNat - 48)) ds else none

/-- Nonempty digit run. -/
def parseDigits : List Char → Option Nat
  | [] => none
  | l => parseDigitsGo 0 l

/-- Modelled from Python's built-in `int()` on the cycle byte string,
restricted to an optional sign followed by decimal digits (`None` stands
for the `ValueError` that `int()` raises otherwise). -/
def parseInt : List Char → Option Int
  | '-' :: ds => (parseDigits ds).map (fun n => -(n : Int))
  | '+' :: ds => (parseDigits ds).map (fun n => (n : Int))
  | ds => (parseDigits ds).map (fun n => (n : Int))

/-- Python `name.rindex(c)`: position of the last occurrence of `c`, if
any. -/
def rindexGo (c : Char) : List Char → Option Nat
  | [] => none
  | x :: xs =>
    match rindexGo c xs with
    | some j => some (j + 1)
    | none => if x = c then some 0 else none

/-- The key scan of `ROOTDirectory.get`: first key in stored order whose
`fName` matches and whose `fCycle` matches when a cycle was given;
`KeyError` when none does. -/
def dirScan (keys : List (KeyHdr × RValue)) (name : List Char)
    (cycle : Option Int) : Except PyErr RValue :=
  match keys with
  | [] => .error (.keyError name)
  | k :: ks =>
    if k.1.fName = name ∧ (cycle = none ∨ some k.1.fCycle = cycle) then
      .ok k.2
    else dirScan ks name cycle

/-- The no-slash branch of `ROOTDirectory.get`: when no explicit cycle was
given and the name contains `;`, split at the last `;` and parse the tail
as the cycle (a failed `int()` raises `ValueError`); then scan the keys.
On a non-directory object `get` does not exist: `AttributeError`. -/
def dirGetSeg : RValue → List Char → Option Int → Except PyErr RValue
  | .leaf _, _, _ => .error .attributeError
  | .dir ks, name, cycle =>
    match cycle, rindexGo (';') name with
    | none, some j =>
      match parseInt (name.drop (j + 1)) with
      | some k => dirScan ks (name.take j) (some k)
      | none => .error .valueError
    | _, _ => dirScan ks name cycle

/-- The segment fold of `ROOTDirectory.get` on a name containing a slash:
the source runs `out = out.get(n, cycle)` over the split segments.
Segments produced by the split never contain the separator
(`splitOnChar_not_mem_self`), so the recursive `get` always takes its
no-slash branch, embedded here as `dirGetSeg`. -/
def dirGetFold (d : RValue) (segs : List (List Char)) (cycle : Option Int) :
    Except PyErr RValue :=
  match segs with
  | [] => .ok d
  | n :: rest =>
    match dirGetSeg d n cycle with
    | .error e => .error e
    | .ok out => dirGetFold out rest cycle

/-- `ROOTDirectory.get(name, cycle)`. -/
def dirGet (d : RValue) (name : List Char) (cycle : Option Int) :
    Except PyErr RValue :=
  if ('/') ∈ name then dirGetFold d (splitOnChar ('/') name) cycle
  else dirGetSeg d name cycle

/-- First stored key matching the name (and the cycle when given) — the
specification of the scan, phrased with `List.find?`. -/
def firstMatch (keys : List (KeyHdr × RValue)) (name : List Char)
    (cycle : Option Int) : Option RValue :=
  (keys.find? (fun k =>
    decide (k.1.fName = name ∧ (cycle = none ∨ some k.1.fCycle = cycle)))).map
    (fun k => k.2)

/-- Concrete directory used to witness the lookup theorems: a single key
`a;1` whose object is a subdirectory holding `b;2`. -/
def demoDir : RValue :=
  .dir [(⟨['a'], 1⟩, .dir [(⟨['b'], 2⟩, .leaf 7)])]

/-- kOffsetP = 40 (spec value). -/
def kOffsetP : Int := 40

/-- Basic type codes (spec values): kChar=1, kShort=2, kInt=3, kLong=4,
kFloat=5, kCounter=6, kDouble=8, kDouble32=9, kUChar=11, kUShort=12,
kUInt=13, kULong=14, kBits=15, kLong64=16, kULong64=17, kBool=18,
kFloat16=19. -/
def kChar : Int := 1

/-- kShort (spec value). -/
def kShort : Int := 2

/-- kInt (spec value). -/
def kInt : Int := 3

/-- kLong (spec value). -/
def kLong : Int := 4

/-- kFloat (spec value). -/
def kFloat : Int := 5

/-- kCounter (spec value). -/
def kCounter : Int := 6

/-- kDouble (spec value). -/
def kDouble : Int := 8

/-- kDouble32 (spec value). -/
def kDouble32 : Int := 9

/-- kUChar (spec value). -/
def kUChar : Int := 11

/-- kUShort (spec value). -/
def kUShort : Int := 12

/-- kUInt (spec value). -/
def kUInt : Int := 13

/-- kULong (spec value). -/
def kULong : Int := 14

/-- kBits (spec value). -/
def kBits : Int := 15

/-- kLong64 (spec value). -/
def kLong64 : Int := 16

/-- kULong64 (spec value). -/
def kULong64 : Int := 17

/-- kBool (spec value). -/
def kBool : Int := 18

/-- kFloat16 (spec value). -/
def kFloat16 : Int := 19

/-- The element data the `TStreamerBasicPointer` synthesis case consults. -/
structure SElem where
  fName : List Char
  fTitle : List Char
  fType : Int
  deriving DecidableEq

/-- Bytes of a bracket group: the characters before the first `]`, if a `]`
exists at all. -/
def takeUntilRB : List Char → Option (List Char)
  | [] => none
  | x :: xs =>
    if x = (']') then some []
    else (takeUntilRB xs).map (fun g => x :: g)

/-- Leftmost match of the source's regular expression (a bracket pair with
a zero-or-more group of non-`]` characters): the group of the first `[`
that is eventually followed by a `]`. -/
def findBracket : List Char → Option (List Char)
  | [] => none
  | x :: xs =>
    if x = ('[') then
      match takeUntilRB xs with
      | some g => some g
      | none => findBracket xs
    else findBracket xs

/-- Leftmost match of the claim's regular expression (a one-or-more group):
the group of the first bracket pair whose group is nonempty. -/
def findBracketPlus : List Char → Option (List Char)
  | [] => none
  | x :: xs =>
    if x = ('[') then
      match takeUntilRB xs with
      | some (g1 :: gs) => some (g1 :: gs)
      | _ => findBracketPlus xs
    else findBracketPlus xs

/-- numpy dtypes selectable by the `TStreamerBasicPointer` case. -/
inductive BPDty where
  | boolD
  | i1
  | u1
  | i2
  | u2
  | i4
  | u4
  | longD
  | ulongD
  | i8
  | u8
  | f4
  | f8
  deriving DecidableEq

/-- numpy element sizes in bytes (`numpy.long`/`numpy.ulong` are 8 bytes on
the 64-bit platforms this module ran on). -/
def bpDtySize : BPDty → Nat
  | .boolD => 1
  | .i1 => 1
  | .u1 => 1
  | .i2 => 2
  | .u2 => 2
  | .i4 => 4
  | .u4 => 4
  | .longD => 8
  | .ulongD => 8
  | .i8 => 8
  | .u8 => 8
  | .f4 => 4
  | .f8 => 8

/-- The dtype selection chain of the `TStreamerBasicPointer` case, keyed on
`fType - kOffsetP`; `none` for types outside the chain, which the caller
turns into `NotImplementedError`. -/
def bpDtype (t : Int) : Option BPDty :=
  if t = kBool then some .boolD
  else if t = kChar then some .i1
  else if t = kUChar then some .u1
  else if t = kShort then some .i2
  else if t = kUShort then some .u2
  else if t = kInt then some .i4
  else if t = kBits ∨ t = kUInt ∨ t = kCounter then some .u4
  else if t = kLong then some .longD
  else if t = kULong then some .ulongD
  else if t = kLong64 then some .i8
  else if t = kULong64 then some .u8
  else if t = kFloat ∨ t = kFloat16 then some .f4
  else if t = kDouble ∨ t = kDouble32 then some .f8
  else none

/-- The op emitted for a `TStreamerBasicPointer` element: read a 1-byte
marker, then `self.<counter>` elements of `dty` into `self.<field>`. -/
structure BPOp where
  field : List Char
  counter : List Char
  dty : BPDty
  deriving DecidableEq

/-- The `TStreamerBasicPointer` case of `_defineclasses`: emit the 1-byte
marker read, extract the counter name as the group of the regex match over
`fTitle` (`ValueError` — the `MalformedStreamer` failure — when there is no
match), assert `kOffsetP < fType < kOffsetP + 20`, and select the dtype
from `fType - kOffsetP`. -/
def synthBasicPointer (e : SElem) : Except PyErr BPOp :=
  match findBracket e.fTitle with
  | none => .error .valueError
  | some counter =>
    if kOffsetP < e.fType ∧ e.fType < kOffsetP + 20 then
      match bpDtype (e.fType - kOffsetP) with
      | none => .error .notImplementedError
      | some d => .ok ⟨e.fName, counter, d⟩
    else .error .assertionError

/-- Semantics of the two generated lines for a `BasicPointer`: the 1-byte
marker is read into a local (and discarded), then `self.<counter>` elements
of the dtype are read into `self.<field>` (a missing counter attribute is
an `AttributeError`); elements are kept as raw big-endian patterns. -/
def runBPOp (op : BPOp) (obj : List (List Char × Nat)) (s : Src) (i : Nat) :
    Except PyErr ((List Char × List Nat) × Nat) :=
  match obj.lookup op.counter with
  | none => .error .attributeError
  | some n =>
    .ok ((op.field,
      (List.range n).map (fun j =>
        readBE s (i + 1 + j * bpDtySize op.dty) (bpDtySize op.dty))),
      i + 1 + n * bpDtySize op.dty)

/-- A struct format letter of a `!`-format decode emitted by the
basic-batch logic. -/
inductive FmtLetter where
  | boolB
  | i8L
  | u8L
  | i16L
  | u16L
  | i32L
  | u32L
  | longL
  | ulongL
  | i64L
  | u64L
  | f32L
  | f64L
  deriving DecidableEq

/-- Byte size of one letter in a `!`-format (standard sizes: `l` and `L`
are 4 bytes in network byte order). -/
def letterSize : FmtLetter → Nat
  | .boolB => 1
  | .i8L => 1
  | .u8L => 1
  | .i16L => 2
  | .u16L => 2
  | .i32L => 4
  | .u32L => 4
  | .longL => 4
  | .ulongL => 4
  | .i64L => 8
  | .u64L => 8
  | .f32L => 4
  | .f64L => 8

/-- The fType-to-letter chain of the scalar `TStreamerBasicType` case;
`none` for an unknown `fType`, which the synthesizer turns into
`NotImplementedError`. -/
def scalarLetter (t : Int) : Option FmtLetter :=
  if t = kBool then some .boolB
  else if t = kChar then some .i8L
  else if t = kUChar then some .u8L
  else if t = kShort then some .i16L
  else if t = kUShort then some .u16L
  else if t = kInt then some .i32L
  else if t = kBits ∨ t = kUInt ∨ t = kCounter then some .u32L
  else if t = kLong then some .longL
  else if t = kULong then some .ulongL
  else if t = kLong64 then some .i64L
  else if t = kULong64 then some .u64L
  else if t = kFloat ∨ t = kFloat16 then some .f32L
  else if t = kDouble ∨ t = kDouble32 then some .f64L
  else none

/-- An element as the basic-batch logic of `_defineclasses` sees it: a
`TStreamerBasicType` with its field name, `fType` and `fArrayLength`, or
an element of any other kind (opaque). -/
inductive SynElem where
  | basic (name : List Char) (fType : Int) (arrayLen : Int)
  | other (tag : Nat)

/-- An op of the generated `_readinto`: one multi-field `cursor.fields`
decode with the batched names and letters, or the op of another element
kind (abstract). -/
inductive ROp where
  | fieldsOp (names : List (List Char)) (letters : List FmtLetter)
  | otherOp (tag : Nat)

/-- The batch-flush lookahead of the `TStreamerBasicType` case: flush when
the current element is the last one, or the next element is not a
`TStreamerBasicType`, or it has `fArrayLength ≠ 0`. -/
def needFlush : List SynElem → Bool
  | [] => true
  | SynElem.basic _ _ al :: _ => if al = 0 then false else true
  | SynElem.other _ :: _ => true

/-- The basic-batch accumulation loop of `_defineclasses`: consecutive
scalar `TStreamerBasicType` elements accumulate names and format letters
and a single `fieldsOp` is emitted when the lookahead flushes the batch;
an unknown scalar `fType` or a positive `fArrayLength` raises
`NotImplementedError`; other element kinds emit their own op and leave the
accumulators untouched (they are always empty there, since the lookahead
flushed at the preceding scalar). -/
def emitGo (accN : List (List Char)) (accL : List FmtLetter) :
    List SynElem → Except PyErr (List ROp)
  | [] => .ok []
  | SynElem.basic nm t al :: rest =>
    if al = 0 then
      match scalarLetter t with
      | none => .error .notImplementedError
      | some l =>
        if needFlush rest then
          (emitGo [] [] rest).map
            (fun ops => ROp.fieldsOp (accN ++ [nm]) (accL ++ [l]) :: ops)
        else emitGo (accN ++ [nm]) (accL ++ [l]) rest
    else .error .notImplementedError
  | SynElem.other g :: rest =>
    (emitGo accN accL rest).map (fun ops => ROp.otherOp g :: ops)

/-- The synthesizer's emission for an element list. -/
def emitOps (elems : List SynElem) : Except PyErr (List ROp) :=
  emitGo [] [] elems

/-- The unbatched emission: each scalar becomes its own one-field decode
(the claim's decoding of each scalar element individually, in order). -/
def emitIndiv : List SynElem → Except PyErr (List ROp)
  | [] => .ok []
  | SynElem.basic nm t al :: rest =>
    if al = 0 then
      match scalarLetter t with
      | none => .error .notImplementedError
      | some l =>
        (emitIndiv rest).map (fun ops => ROp.fieldsOp [nm] [l] :: ops)
    else .error .notImplementedError
  | SynElem.other g :: rest =>
    (emitIndiv rest).map (fun ops => ROp.otherOp g :: ops)

/-- Field assignments produced by running generated ops: field name to
(format letter, raw big-endian pattern).  The raw pattern determines the
decoded value whatever the letter's value decoder is. -/
abbrev Assigns := List (List Char × (FmtLetter × Nat))

/-- Byte offset of each field inside a multi-field `!`-format. -/
def letterOffsets : List FmtLetter → List Nat
  | [] => []
  | l :: ls => 0 :: (letterOffsets ls).map (fun o => letterSize l + o)

/-- Total byte size of a `!`-format. -/
def lettersSize : List FmtLetter → Nat
  | [] => 0
  | l :: ls => letterSize l + lettersSize ls

/-- `struct.unpack` semantics of one coalesced `!`-format decode of the
bytes at `i`: every field is decoded at its own offset inside the
`lettersSize` bytes consumed. -/
def batchDecode (s : Src) (i : Nat) (ls : List FmtLetter) :
    List (FmtLetter × Nat) :=
  (ls.zip (letterOffsets ls)).map
    (fun lo => (lo.1, readBE s (i + lo.2) (letterSize lo.1)))

/-- Field-by-field decode: read one field, advance, read the next. -/
def seqDecode (s : Src) (i : Nat) : List FmtLetter → List (FmtLetter × Nat)
  | [] => []
  | l :: ls =>
    (l, readBE s i (letterSize l)) :: seqDecode s (i + letterSize l) ls

/-- Run one op: a batch op assigns the decoded fields and advances by the
format size; other ops run the abstract semantics `ro`. -/
def runOp (ro : Nat → Src → Nat → Assigns × Nat) (op : ROp) (s : Src)
    (i : Nat) : Assigns × Nat :=
  match op with
  | .fieldsOp names letters =>
    (names.zip (batchDecode s i letters), i + lettersSize letters)
  | .otherOp g => ro g s i

/-- Run a list of generated ops in order, accumulating assignments. -/
def runOps (ro : Nat → Src → Nat → Assigns × Nat) : List ROp → Src → Nat →
    Assigns × Nat
  | [], _, i => ([], i)
  | op :: ops, s, i =>
    ((runOp ro op s i).1 ++ (runOps ro ops s (runOp ro op s i).2).1,
     (runOps ro ops s (runOp ro op s i).2).2)

/-- Run an emission result, propagating synthesis failure. -/
def runEmit (ro : Nat → Src → Nat → Assigns × Nat)
    (e : Except PyErr (List ROp)) (s : Src) (i : Nat) :
    Except PyErr (Assigns × Nat) :=
  match e with
  | .error err => .error err
  | .ok ops => .ok (runOps ro ops s i)

/-- Direct denotation of an element list: scalars decode one field each in
order, other elements run the abstract semantics, failures as in the
synthesizer. -/
def denoteElems (ro : Nat → Src → Nat → Assigns × Nat) :
    List SynElem → Src → Nat → Except PyErr (Assigns × Nat)
  | [], _, i => .ok ([], i)
  | SynElem.basic nm t al :: rest, s, i =>
    if al = 0 then
      match scalarLetter t with
      | none => .error .notImplementedError
      | some l =>
        match denoteElems ro rest s (i + letterSize l) with
        | .error e => .error e
        | .ok r => .ok ((nm, (l, readBE s i (letterSize l))) :: r.1, r.2)
    else .error .notImplementedError
  | SynElem.other g :: rest, s, i =>
    match denoteElems ro rest s ((ro g s i).2) with
    | .error e => .error e
    | .ok r => .ok ((ro g s i).1 ++ r.1, r.2)

/-- C1: for every record framed by the byte-count/version header, the
effective byte count returned by `_startcheck` is `(cnt & ~kByteCountMask) + 4`
counted from the header's start (the returned `start` is the header's start
and the cursor advances 6 bytes); `_endcheck(start, cnt)` fails with
`MalformedRecord` (a `ValueError`) iff `cursor.index - start ≠ cnt`; and in
particular a well-formed record — one whose consumption ends exactly `cnt`
bytes after the header's start — always passes `_endcheck`. -/
theorem startcheck_endcheck_framing (s : Src) (i : Nat) :
    (startcheck s i).1 = i ∧
    (startcheck s i).2.1 = (readBE s i 4 &&& 0xBFFFFFFF) + 4 ∧
    (startcheck s i).2.2.2 = i + 6 ∧
    (∀ j : Nat, endcheck i j ((startcheck s i).2.1) = .error .valueError ↔
      (j : Int) - (i : Int) ≠ ((startcheck s i).2.1 : Int)) ∧
    (∀ j : Nat, (j : Int) = (i : Int) + ((startcheck s i).2.1 : Int) →
      endcheck i j ((startcheck s i).2.1) = .ok ()) := by
  refine ⟨rfl, rfl, rfl, ?_, ?_⟩
  · intro j
    constructor
    · intro h
      by_contra hne
      simp [endcheck, hne] at h
    · intro hne
      simp [endcheck, hne]
  · intro j hj
    have : (j : Int) - (i : Int) = ((startcheck s i).2.1 : Int) := by omega
    simp [endcheck, this]

/-- Witness for C1 at a concrete record: header bytes `[0,0,0,2, 0,1]` give
effective count 6, and a consumer ending at offset 6 passes `_endcheck`. -/
theorem startcheck_endcheck_framing_witness :
    endcheck 0 6 ((startcheck (srcOf [0, 0, 0, 2, 0, 1]) 0).2.1) = .ok () :=
  (startcheck_endcheck_framing (srcOf [0, 0, 0, 2, 0, 1]) 0).2.2.2.2 6 (by decide)

/-- Normalized `fType` is 18 exactly when the raw `fType` was 18 already or
was 11 with `fTypeName` equal to `Bool_t` or `bool`. -/
theorem tseNorm_eq_18 (t : Int) (tn : List Nat) :
    tseNorm t tn = 18 ↔
      t = 18 ∨ (t = 11 ∧ (tn = bstr "Bool_t" ∨ tn = bstr "bool")) := by
  unfold tseNorm
  split <;> rename_i h
  · simp only [true_iff]
    exact Or.inr h
  · constructor
    · intro ht; exact Or.inl ht
    · rintro (ht | hb)
      · exact ht
      · exact absurd hb h

/-- C6: for every successfully read `TStreamerElement` record: when the
record version is 1, `fMaxIndex` is an `i32` count `n` followed by `n`
big-endian `i32` values, otherwise exactly 5 big-endian `i32` values (`p` is
the offset of the `fMaxIndex` block, 16 bytes past the raw `fType` field);
`fTypeName` is then read as a length-prefixed string immediately after the
block; and the resulting `fType` is 18 exactly when the raw `fType` was 18
or was 11 with `fTypeName` in `Bool_t`/`bool`. -/
theorem tstreamerelement_maxindex_typename (s : Src) (i : Nat) (r : TSE)
    (i' : Nat) (h : tseReadinto s i = .ok (r, i')) :
    ∃ p : Nat,
      (readBE s (i + 4) 2 = 1 →
        r.fMaxIndex = readI32Arr s (p + 4) (readI32V s p).toNat ∧
        r.fTypeName = (readStr s (p + 4 + 4 * (readI32V s p).toNat)).1) ∧
      (readBE s (i + 4) 2 ≠ 1 →
        r.fMaxIndex = readI32Arr s p 5 ∧
        r.fTypeName = (readStr s (p + 20)).1) ∧
      (r.fType = 18 ↔
        readI32V s (p - 16) = 18 ∨
        (readI32V s (p - 16) = 11 ∧
          (r.fTypeName = bstr "Bool_t" ∨ r.fTypeName = bstr "bool"))) := by
  unfold tseReadinto at h
  dsimp only at h
  split at h
  · exact absurd h (by simp)
  · rename_i nt hnt
    split at h
    · exact absurd h (by simp)
    · rename_i u hend
      rw [Except.ok.injEq, Prod.mk.injEq] at h
      obtain ⟨hr, hi'⟩ := h
      subst hr
      refine ⟨nt.2 + 16, ?_, ?_, ?_⟩
      · intro hv
        have hv' : (startcheck s i).2.2.1 = 1 := by
          simpa [startcheck] using hv
        constructor
        · simp [tseMaxIndex, hv']
        · simp [tseMaxIndex, hv']
      · intro hv
        have hv' : (startcheck s i).2.2.1 ≠ 1 := by
          simpa [startcheck] using hv
        constructor
        · simp [tseMaxIndex, hv']
        · simp [tseMaxIndex, hv']
      · have hp : nt.2 + 16 - 16 = nt.2 := by omega
        rw [hp]
        exact tseNorm_eq_18 _ _

/-- Witness for C6 on a concrete version-2 element record with raw
`fType = 11` and `fTypeName = "bool"` (so the normalization fires). -/
theorem tstreamerelement_maxindex_typename_witness :
    ∃ p : Nat,
      (readBE (srcOf tseBytes) (0 + 4) 2 = 1 →
        (⟨[65], [], 18, 1, 0, 0, [0, 0, 0, 0, 0], bstr "bool", 0, 0, 0⟩ :
          TSE).fMaxIndex =
          readI32Arr (srcOf tseBytes) (p + 4)
            (readI32V (srcOf tseBytes) p).toNat ∧
        (⟨[65], [], 18, 1, 0, 0, [0, 0, 0, 0, 0], bstr "bool", 0, 0, 0⟩ :
          TSE).fTypeName =
          (readStr (srcOf tseBytes)
            (p + 4 + 4 * (readI32V (srcOf tseBytes) p).toNat)).1) ∧
      (readBE (srcOf tseBytes) (0 + 4) 2 ≠ 1 →
        (⟨[65], [], 18, 1, 0, 0, [0, 0, 0, 0, 0], bstr "bool", 0, 0, 0⟩ :
          TSE).fMaxIndex = readI32Arr (srcOf tseBytes) p 5 ∧
        (⟨[65], [], 18, 1, 0, 0, [0, 0, 0, 0, 0], bstr "bool", 0, 0, 0⟩ :
          TSE).fTypeName = (readStr (srcOf tseBytes) (p + 20)).1) ∧
      ((⟨[65], [], 18, 1, 0, 0, [0, 0, 0, 0, 0], bstr "bool", 0, 0, 0⟩ :
          TSE).fType = 18 ↔
        readI32V (srcOf tseBytes) (p - 16) = 18 ∨
        (readI32V (srcOf tseBytes) (p - 16) = 11 ∧
          ((⟨[65], [], 18, 1, 0, 0, [0, 0, 0, 0, 0], bstr "bool", 0, 0,
              0⟩ : TSE).fTypeName = bstr "Bool_t" ∨
           (⟨[65], [], 18, 1, 0, 0, [0, 0, 0, 0, 0], bstr "bool", 0, 0,
              0⟩ : TSE).fTypeName = bstr "bool"))) :=
  tstreamerelement_maxindex_typename (srcOf tseBytes) 0
    ⟨[65], [], 18, 1, 0, 0, [0, 0, 0, 0, 0], bstr "bool", 0, 0, 0⟩ 66
    (by rfl)

/-- C9 (code bug): `TString.read` consumes exactly the length-prefixed
string — the cursor ends right after the payload, for the 1-byte as well as
the `0xFF`-escaped length prefix — but always returns the blank (empty)
`TString`, because `ROOTObject.read` discards `_readinto`'s return value;
at the stream `[3, 97, 98, 99]` the payload `"abc"` is consumed and lost. -/
theorem tstring_read_returns_blank :
    (∀ (s : Src) (i : Nat), tstringRead s i = ([], (readStr s i).2)) ∧
    tstringRead (srcOf [3, 97, 98, 99]) 0 = ([], 4) ∧
    readStr (srcOf [3, 97, 98, 99]) 0 = ([97, 98, 99], 4) := by
  refine ⟨fun s i => rfl, by rfl, by rfl⟩

/-- Which payload source `TKey._readinto` selects, the header record, and
the final cursor position do not depend on the file's compression flag; only
the compression spec stored inside a `CompressedSource` does. -/
theorem tkeyShape_indep (c1 c2 : Int) (s : Src) (i : Nat) :
    Except.map (fun x => ((x.1.1, selShape x.1.2), x.2))
        (tkeyReadinto c1 s i) =
      Except.map (fun x => ((x.1.1, selShape x.1.2), x.2))
        (tkeyReadinto c2 s i) := by
  unfold tkeyReadinto
  dsimp only
  split_ifs <;>
    simp [Except.map, tkeySel, selShape] <;> split_ifs <;> simp [selShape]

/-- C4: whenever `TKey._readinto` succeeds, the payload is treated as
compressed exactly when `fObjlen ≠ fNbytes - fKeylen`, with the compression
spec, a window over `[fSeekKey + fKeylen, fSeekKey + fNbytes)` and a cursor
with `index = 0`, `origin = -fKeylen`; otherwise it is read directly from
the file with the cursor at `fSeekKey + fKeylen` and `origin = fSeekKey` —
and this outcome is the same for every value of the file's compression flag
(the size check wins over the flag). -/
theorem tkey_source_selection (compression : Int) (s : Src) (i : Nat)
    (r : TKeyRec) (sel : SrcSel) (i' : Nat)
    (h : tkeyReadinto compression s i = .ok ((r, sel), i')) :
    (sel = SrcSel.uncompressed (r.fSeekKey + r.fKeylen) r.fSeekKey ↔
      r.fObjlen = r.fNbytes - r.fKeylen) ∧
    (r.fObjlen ≠ r.fNbytes - r.fKeylen →
      sel = SrcSel.compressed compression (r.fSeekKey + r.fKeylen)
        (r.fNbytes - r.fKeylen) r.fObjlen 0 (-r.fKeylen)) ∧
    (∀ c2 : Int,
      Except.map (fun x => ((x.1.1, selShape x.1.2), x.2))
          (tkeyReadinto c2 s i) =
        .ok ((r, selShape sel), i')) := by
  have h0 := h
  unfold tkeyReadinto at h
  dsimp only at h
  split at h <;> split at h <;> split at h <;>
    first
    | exact Except.noConfusion h
    | (rw [Except.ok.injEq, Prod.mk.injEq] at h
       obtain ⟨hpair, hi'⟩ := h
       rw [Prod.mk.injEq] at hpair
       obtain ⟨hr, hsel⟩ := hpair
       subst hr
       refine ⟨?_, ?_, ?_⟩
       · dsimp only
         rw [← hsel]
         unfold tkeySel
         split_ifs with hx
         · constructor
           · intro hu
             exact absurd hu (by simp)
           · intro he
             exact absurd he hx
         · push_neg at hx
           simp [hx]
       · dsimp only
         intro hne
         rw [← hsel]
         unfold tkeySel
         rw [if_pos hne]
       · intro c2
         rw [tkeyShape_indep c2 compression s i, h0]
         rfl)

/-- Witness for C4 at a concrete uncompressed key (`fNbytes = 100`,
`fKeylen = 50`, `fObjlen = 50`): for any chosen compression flag value the
key is read uncompressed with the cursor at `fSeekKey + fKeylen = 50` and
`origin = fSeekKey = 0`. -/
theorem tkey_source_selection_witness :
    (SrcSel.uncompressed 50 0 = SrcSel.uncompressed (0 + 50) 0 ↔
      (50 : Int) = 100 - 50) ∧
    ((50 : Int) ≠ 100 - 50 →
      SrcSel.uncompressed 50 0 =
        SrcSel.compressed 9 (0 + 50) (100 - 50) 50 0 (-50)) ∧
    (∀ c2 : Int,
      Except.map (fun x => ((x.1.1, selShape x.1.2), x.2))
          (tkeyReadinto c2 (srcOf tkeyBytes) 0) =
        .ok ((⟨100, 1, 50, 0, 50, 1, 0, 7, [65], [66], [67]⟩,
          selShape (SrcSel.uncompressed 50 0)), 32)) :=
  tkey_source_selection 9 (srcOf tkeyBytes) 0
    ⟨100, 1, 50, 0, 50, 1, 0, 7, [65], [66], [67]⟩
    (SrcSel.uncompressed 50 0) 32 (by rfl)

/-- C5 (code bug): a key whose class name is neither `TDirectory` nor in
`context.classes` makes `TKey.get` raise `TypeError` — `Undefined` is called
with three constructor arguments it cannot accept (and its `_readinto`,
lacking the `self` parameter, could not be called by `ROOTObject.read`
either).  Moreover the skip in `Undefined._readinto`'s body is itself
miswritten: it skips `cnt - 2` bytes after the 6-byte header, overshooting
the record end by 4, so its own `_endcheck` always raises `ValueError`. -/
theorem tkeyget_undefined_raises :
    tkeyGet bootstrapClasses (bstr "Foo") = .error .typeError ∧
    (∀ (s : Src) (i : Nat),
      undefinedReadintoBody s i = .error .valueError) := by
  constructor
  · rfl
  · intro s i
    unfold undefinedReadintoBody
    dsimp only
    have hc : ((((startcheck s i).2.2.2 + ((startcheck s i).2.1 - 2) :
        Nat) : Int) - (i : Int)) ≠ (((startcheck s i).2.1 : Nat) : Int) := by
      simp only [startcheck]
      generalize readBE s i 4 &&& 0xBFFFFFFF = m
      omega
    have he : endcheck i ((startcheck s i).2.2.2 + ((startcheck s i).2.1 - 2))
        ((startcheck s i).2.1) = .error .valueError := by
      unfold endcheck
      rw [if_pos hc]
    rw [he]

/-- C2: in `_readanyref`, when the decoded tag has `kClassMask` clear, is
neither 0 nor 1, and is absent from `cursor.refs`, the call sets
`cursor.index = origin + beg + bcnt + 4` (`beg` being `index - origin` at
entry, `bcnt` as left by the header decode — 0 for a raw tag) and returns
null without raising, leaving the reference table untouched; and this skip,
together with the on-wire null tag 0, is the only way `_readanyref` returns
null — every other outcome is an object or a raised error. -/
theorem readanyref_unresolvable_skip
    (readObj : Fct → RCur → Except PyErr (Nat × RCur))
    (classes : List (List Nat)) (s : Src) (c : RCur) (fuel : Nat) :
    ((anyRefDecode s c).2.2.1 &&& kClassMask = 0 →
     (anyRefDecode s c).2.2.1 ≠ 0 →
     (anyRefDecode s c).2.2.1 ≠ 1 →
     c.refs.find (((anyRefDecode s c).2.2.1 : Nat) : Int) = none →
     readanyref readObj classes s c fuel =
       .ok (none, ⟨c.origin + (c.index - c.origin) +
         (((anyRefDecode s c).2.2.2.1 : Nat) : Int) + 4, c.origin,
         c.refs⟩)) ∧
    (∀ c' : RCur, readanyref readObj classes s c fuel = .ok (none, c') →
      ((anyRefDecode s c).2.2.1 = 0 ∧
        c'.index = (anyRefDecode s c).2.2.2.2) ∨
      ((anyRefDecode s c).2.2.1 &&& kClassMask = 0 ∧
       (anyRefDecode s c).2.2.1 ≠ 0 ∧ (anyRefDecode s c).2.2.1 ≠ 1 ∧
       c.refs.find (((anyRefDecode s c).2.2.1 : Nat) : Int) = none ∧
       c'.index = c.origin + (c.index - c.origin) +
         (((anyRefDecode s c).2.2.2.1 : Nat) : Int) + 4)) := by
  constructor
  · intro hmask h0 h1 hlook
    unfold readanyref
    dsimp only
    rw [if_pos hmask, if_neg h0, if_neg h1, hlook]
  · intro c' h
    unfold readanyref at h
    dsimp only at h
    by_cases hmask : (anyRefDecode s c).2.2.1 &&& kClassMask = 0
    · rw [if_pos hmask] at h
      by_cases h0 : (anyRefDecode s c).2.2.1 = 0
      · rw [if_pos h0] at h
        rw [Except.ok.injEq, Prod.mk.injEq] at h
        exact Or.inl ⟨h0, by rw [← h.2]⟩
      · rw [if_neg h0] at h
        by_cases h1 : (anyRefDecode s c).2.2.1 = 1
        · rw [if_pos h1] at h
          exact Except.noConfusion h
        · rw [if_neg h1] at h
          cases hfind : c.refs.find (((anyRefDecode s c).2.2.1 : Nat) : Int) with
          | none =>
            rw [hfind] at h
            rw [Except.ok.injEq, Prod.mk.injEq] at h
            exact Or.inr ⟨hmask, h0, h1, rfl, by rw [← h.2]⟩
          | some v =>
            rw [hfind] at h
            rw [Except.ok.injEq, Prod.mk.injEq] at h
            exact absurd h.1 (by simp)
    · rw [if_neg hmask] at h
      by_cases hnt : (anyRefDecode s c).2.2.1 = kNewClassTag
      · rw [if_pos hnt] at h
        split at h
        · exact Except.noConfusion h
        · rw [Except.ok.injEq, Prod.mk.injEq] at h
          exact absurd h.1 (by simp)
      · rw [if_neg hnt] at h
        split at h
        · exact Except.noConfusion h
        · split at h
          · exact Except.noConfusion h
          · split at h
            · split at h
              · exact Except.noConfusion h
              · rw [Except.ok.injEq, Prod.mk.injEq] at h
                exact absurd h.1 (by simp)
            · exact Except.noConfusion h

/-- Witness for C2: a framed reference (`bcnt = 0x40000008`) to the unknown
tag 5, read from entry index 10 with origin `-2` (as inside a decompressed
window): the result is null and the cursor lands at
`origin + beg + bcnt + 4`. -/
theorem readanyref_unresolvable_skip_witness :
    readanyref dummyReadObj [] (srcOf anyrefBytes) ⟨10, -2, emptyRefs⟩ 0 =
      .ok (none, ⟨(-2 : Int) + ((10 : Int) - (-2 : Int)) +
        (((anyRefDecode (srcOf anyrefBytes)
            ⟨10, -2, emptyRefs⟩).2.2.2.1 : Nat) : Int) + 4,
        -2, emptyRefs⟩) :=
  (readanyref_unresolvable_skip dummyReadObj [] (srcOf anyrefBytes)
      ⟨10, -2, emptyRefs⟩ 0).1 (by decide) (by decide) (by decide) rfl

/-- The split never yields the empty chunk list. -/
theorem splitOnChar_ne_nil (c : Char) (l : List Char) :
    splitOnChar c l ≠ [] := by
  cases l with
  | nil => simp [splitOnChar]
  | cons x xs =>
    simp only [splitOnChar]
    cases h : splitOnChar c xs with
    | nil => simp
    | cons r rs => by_cases hx : x = c <;> simp [hx]

/-- Chunks produced by the split never contain the separator (this is what
lets `ROOTDirectory.get`'s segment fold be embedded by its no-slash
branch). -/
theorem splitOnChar_not_mem_self (c : Char) (l : List Char) :
    ∀ seg ∈ splitOnChar c l, c ∉ seg := by
  induction l with
  | nil =>
    intro seg hseg
    simp only [splitOnChar, List.mem_singleton] at hseg
    subst hseg
    simp
  | cons x xs ih =>
    intro seg hseg
    simp only [splitOnChar] at hseg
    cases h : splitOnChar c xs with
    | nil => exact absurd h (splitOnChar_ne_nil c xs)
    | cons r rs =>
      rw [h] at hseg
      dsimp only at hseg
      have ihr : c ∉ r := ih r (by rw [h]; exact List.mem_cons_self r rs)
      by_cases hx : x = c
      · rw [if_pos hx] at hseg
        rcases List.mem_cons.mp hseg with h1 | h1
        · subst h1; simp
        · rcases List.mem_cons.mp h1 with h2 | h2
          · subst h2; exact ihr
          · exact ih seg (by rw [h]; exact List.mem_cons_of_mem r h2)
      · rw [if_neg hx] at hseg
        rcases List.mem_cons.mp hseg with h1 | h1
        · subst h1
          simp only [List.mem_cons, not_or]
          exact ⟨fun hc => hx hc.symm, ihr⟩
        · exact ih seg (by rw [h]; exact List.mem_cons_of_mem r h1)

/-- Splitting distributes over a separator occurrence. -/
theorem splitOnChar_append (c : Char) (xs ys : List Char) :
    splitOnChar c (xs ++ c :: ys) = splitOnChar c xs ++ splitOnChar c ys := by
  induction xs with
  | nil =>
    cases hys : splitOnChar c ys with
    | nil => exact absurd hys (splitOnChar_ne_nil c ys)
    | cons r rs => simp [splitOnChar, hys]
  | cons x xs ih =>
    cases hxs : splitOnChar c xs with
    | nil => exact absurd hxs (splitOnChar_ne_nil c xs)
    | cons r rs =>
      simp only [List.cons_append, splitOnChar, List.append_eq]
      rw [ih, hxs]
      by_cases hx : x = c
      · simp [hx]
      · simp [hx]

/-- A separator-free string is a single chunk. -/
theorem splitOnChar_single (c : Char) (l : List Char) (h : c ∉ l) :
    splitOnChar c l = [l] := by
  induction l with
  | nil => rfl
  | cons x xs ih =>
    simp only [List.mem_cons, not_or] at h
    simp only [splitOnChar, ih h.2]
    rw [if_neg (fun hx => h.1 hx.symm)]

/-- `rindex` finds nothing in a string without the character. -/
theorem rindexGo_none (c : Char) (l : List Char) (h : c ∉ l) :
    rindexGo c l = none := by
  induction l with
  | nil => rfl
  | cons x xs ih =>
    simp only [List.mem_cons, not_or] at h
    simp only [rindexGo, ih h.2]
    rw [if_neg (fun hx => h.1 hx.symm)]

/-- `rindex` of the last separator occurrence. -/
theorem rindexGo_last (c : Char) (nm t : List Char) (h : c ∉ t) :
    rindexGo c (nm ++ c :: t) = some nm.length := by
  induction nm with
  | nil =>
    simp only [List.nil_append, rindexGo, rindexGo_none c t h]
    simp
  | cons x xs ih =>
    simp only [List.cons_append, rindexGo, List.append_eq]
    rw [ih]
    simp

/-- Taking the prefix length recovers the prefix. -/
theorem take_len_append (nm rest : List Char) :
    (nm ++ rest).take nm.length = nm := by
  induction nm with
  | nil => rfl
  | cons x xs ih => simp [ih]

/-- Dropping past the separator recovers the tail. -/
theorem drop_len_append (nm : List Char) (c : Char) (t : List Char) :
    (nm ++ c :: t).drop (nm.length + 1) = t := by
  induction nm with
  | nil => rfl
  | cons x xs ih =>
    simp only [List.cons_append, List.length_cons, List.drop_succ_cons]
    exact ih

/-- The last-semicolon split of the no-slash branch: with no explicit cycle
and a name of the form `b;t` (no `;` in `t`, `t` parsing as `n`), lookup is
the same as an explicit-cycle lookup of `b`. -/
theorem dirGetSeg_cycle_split (o : RValue) (b t : List Char) (n : Int)
    (hsemi : (';') ∉ t) (hp : parseInt t = some n) :
    dirGetSeg o (b ++ (';') :: t) none = dirGetSeg o b (some n) := by
  cases o with
  | leaf k => rfl
  | dir ks =>
    simp only [dirGetSeg, rindexGo_last (';') b t hsemi]
    rw [drop_len_append, hp, take_len_append]

/-- Sequencing results agree when the continuations agree pointwise. -/
theorem exceptBind_congr {x : Except PyErr RValue}
    {f g : RValue → Except PyErr RValue} (h : ∀ o, f o = g o) :
    x.bind f = x.bind g := by
  cases x with
  | error e => rfl
  | ok o => exact h o

/-- The segment fold splits along list concatenation. -/
theorem dirGetFold_append (d : RValue) (l1 l2 : List (List Char))
    (cyc : Option Int) :
    dirGetFold d (l1 ++ l2) cyc =
      (dirGetFold d l1 cyc).bind (fun o => dirGetFold o l2 cyc) := by
  induction l1 generalizing d with
  | nil => rfl
  | cons n rest ih =>
    simp only [List.cons_append, dirGetFold]
    cases dirGetSeg d n cyc with
    | error e => rfl
    | ok o => exact ih o

/-- A one-segment fold is one lookup. -/
theorem dirGetFold_single (d : RValue) (n : List Char) (cyc : Option Int) :
    dirGetFold d [n] cyc = dirGetSeg d n cyc := by
  simp only [dirGetFold]
  cases dirGetSeg d n cyc <;> rfl

/-- Folding over a name's own split is `get` of that name. -/
theorem dirGetFold_split (d : RValue) (a : List Char) (cyc : Option Int) :
    dirGetFold d (splitOnChar ('/') a) cyc = dirGet d a cyc := by
  by_cases h : ('/') ∈ a
  · simp [dirGet, if_pos h]
  · rw [splitOnChar_single _ a h, dirGetFold_single]
    simp [dirGet, if_neg h]

/-- The scan returns the first stored key matching name and cycle, and
`KeyError` when none does. -/
theorem dirScan_eq_firstMatch (ks : List (KeyHdr × RValue)) (nm : List Char)
    (cyc : Option Int) :
    dirScan ks nm cyc =
      match firstMatch ks nm cyc with
      | some v => .ok v
      | none => .error (.keyError nm) := by
  induction ks with
  | nil => rfl
  | cons k rest ih =>
    by_cases h : k.1.fName = nm ∧ (cyc = none ∨ some k.1.fCycle = cyc)
    · simp [dirScan, firstMatch, List.find?_cons, h]
    · simp only [dirScan, if_neg h, ih]
      simp [firstMatch, List.find?_cons, h]

/-- No stored key matches: the scan fails. -/
theorem dirScan_nomatch (ks : List (KeyHdr × RValue)) (a : List Char)
    (cyc : Int) (h : ∀ k ∈ ks, ¬(k.1.fName = a ∧ k.1.fCycle = cyc)) :
    dirScan ks a (some cyc) = .error (.keyError a) := by
  induction ks with
  | nil => rfl
  | cons k rest ih =>
    have hk := h k (List.mem_cons_self k rest)
    simp only [dirScan]
    rw [if_neg ?hcond]
    · exact ih (fun x hx => h x (List.mem_cons_of_mem k hx))
    case hcond =>
      rintro ⟨h1, h2⟩
      rcases h2 with h2 | h2
      · exact Option.noConfusion h2
      · exact hk ⟨h1, Option.some.injEq _ _ ▸ h2⟩

/-- C3: `get("a/b;t")` equals `get("a").get("b", cycle=n)` whenever the
cycle tail `t` parses as `n` (segments `b`, `t` free of `/`, `t` free of
`;`; `a` may itself be a path); with no `/` present, the cycle is split off
at the last `;` only when no explicit cycle was given; and the no-slash
lookup scans the stored keys in order, returns the first whose `fName`
matches (and whose `fCycle` matches when a cycle was given), and fails with
`KeyError` when no key matches. -/
theorem dirget_path_cycle_resolution :
    (∀ (d : RValue) (a b t : List Char) (n : Int),
      ('/') ∉ b → ('/') ∉ t → (';') ∉ t → parseInt t = some n →
      dirGet d (a ++ ('/') :: (b ++ (';') :: t)) none =
        (dirGet d a none).bind (fun o => dirGet o b (some n))) ∧
    (∀ (ks : List (KeyHdr × RValue)) (nm t : List Char) (n : Int),
      ('/') ∉ nm → ('/') ∉ t → (';') ∉ t → parseInt t = some n →
      dirGet (.dir ks) (nm ++ (';') :: t) none =
        dirGet (.dir ks) nm (some n)) ∧
    (∀ (ks : List (KeyHdr × RValue)) (nm : List Char) (cyc : Option Int),
      ('/') ∉ nm → (cyc ≠ none ∨ (';') ∉ nm) →
      dirGet (.dir ks) nm cyc =
        (match firstMatch ks nm cyc with
         | some v => .ok v
         | none => .error (.keyError nm))) := by
  refine ⟨?_, ?_, ?_⟩
  · intro d a b t n hb ht hsemi hp
    have hbt : ('/') ∉ b ++ (';') :: t := by
      simp only [List.mem_append, List.mem_cons, not_or]
      exact ⟨hb, by decide, ht⟩
    have hslash : ('/') ∈ a ++ ('/') :: (b ++ (';') :: t) := by simp
    have hL : dirGet d (a ++ ('/') :: (b ++ (';') :: t)) none =
        dirGetFold d (splitOnChar ('/') a ++ [b ++ (';') :: t]) none := by
      simp only [dirGet, if_pos hslash]
      rw [splitOnChar_append, splitOnChar_single _ (b ++ (';') :: t) hbt]
    rw [hL, dirGetFold_append, dirGetFold_split]
    refine exceptBind_congr (fun o => ?_)
    rw [dirGetFold_single, dirGetSeg_cycle_split o b t n hsemi hp]
    simp [dirGet, if_neg hb]
  · intro ks nm t n hnm ht hsemi hp
    have h1 : ('/') ∉ nm ++ (';') :: t := by
      simp only [List.mem_append, List.mem_cons, not_or]
      exact ⟨hnm, by decide, ht⟩
    simp only [dirGet, if_neg h1, if_neg hnm]
    exact dirGetSeg_cycle_split _ nm t n hsemi hp
  · intro ks nm cyc hnm hc
    simp only [dirGet, if_neg hnm]
    cases cyc with
    | some k =>
      simp only [dirGetSeg]
      exact dirScan_eq_firstMatch ks nm (some k)
    | none =>
      have hsemi : (';') ∉ nm := by
        rcases hc with h | h
        · exact absurd rfl h
        · exact h
      simp only [dirGetSeg, rindexGo_none (';') nm hsemi]
      exact dirScan_eq_firstMatch ks nm none

/-- Witness for C3 on the concrete directory `demoDir` (which stores `a;1`
containing `b;2`): the path lookup, the cycle split and the scan spec, each
at a concrete instance. -/
theorem dirget_path_cycle_resolution_witness :
    (dirGet demoDir (['a'] ++ ('/') :: (['b'] ++ (';') :: ['2'])) none =
      (dirGet demoDir ['a'] none).bind (fun o => dirGet o ['b'] (some 2))) ∧
    (dirGet (.dir [(⟨['b'], 2⟩, .leaf 7)]) (['b'] ++ (';') :: ['2']) none =
      dirGet (.dir [(⟨['b'], 2⟩, .leaf 7)]) ['b'] (some 2)) ∧
    (dirGet (.dir [(⟨['b'], 2⟩, .leaf 7)]) ['b'] (some 2) =
      (match firstMatch [(⟨['b'], 2⟩, .leaf 7)] ['b'] (some 2) with
       | some v => .ok v
       | none => .error (.keyError ['b']))) :=
  ⟨dirget_path_cycle_resolution.1 demoDir ['a'] ['b'] ['2'] 2
      (by decide) (by decide) (by decide) (by decide),
   dirget_path_cycle_resolution.2.1 [(⟨['b'], 2⟩, .leaf 7)] ['b'] ['2'] 2
      (by decide) (by decide) (by decide) (by decide),
   dirget_path_cycle_resolution.2.2 [(⟨['b'], 2⟩, .leaf 7)] ['b'] (some 2)
      (by decide) (Or.inl (by decide))⟩

/-- C10: on a slashed name, `ROOTDirectory.get` applies the same explicit
cycle to the lookup of every path segment, including intermediate
subdirectory segments; in particular `get("a/b", cycle=c)` fails with
`KeyError` whenever no stored key has `fName = a` with `fCycle = c`, even
if some `a;1` exists and contains a `b` with cycle `c`. -/
theorem dirget_cycle_every_segment :
    (∀ (d : RValue) (a b : List Char) (cyc : Int),
      ('/') ∉ a → ('/') ∉ b →
      dirGet d (a ++ ('/') :: b) (some cyc) =
        (dirGetSeg d a (some cyc)).bind
          (fun o => dirGetSeg o b (some cyc))) ∧
    (∀ (ks : List (KeyHdr × RValue)) (a b : List Char) (cyc : Int),
      ('/') ∉ a → ('/') ∉ b →
      (∀ k ∈ ks, ¬(k.1.fName = a ∧ k.1.fCycle = cyc)) →
      dirGet (.dir ks) (a ++ ('/') :: b) (some cyc) =
        .error (.keyError a)) := by
  constructor
  · intro d a b cyc ha hb
    have hslash : ('/') ∈ a ++ ('/') :: b := by simp
    have hL : dirGet d (a ++ ('/') :: b) (some cyc) =
        dirGetFold d ([a] ++ [b]) (some cyc) := by
      simp only [dirGet, if_pos hslash]
      rw [splitOnChar_append, splitOnChar_single _ a ha,
        splitOnChar_single _ b hb]
    rw [hL, dirGetFold_append, dirGetFold_single]
    exact exceptBind_congr (fun o => dirGetFold_single o b (some cyc))
  · intro ks a b cyc ha hb hmiss
    have hseg : dirGetSeg (.dir ks) a (some cyc) = .error (.keyError a) := by
      simp only [dirGetSeg]
      exact dirScan_nomatch ks a cyc hmiss
    have hslash : ('/') ∈ a ++ ('/') :: b := by simp
    have hL : dirGet (.dir ks) (a ++ ('/') :: b) (some cyc) =
        dirGetFold (.dir ks) ([a] ++ [b]) (some cyc) := by
      simp only [dirGet, if_pos hslash]
      rw [splitOnChar_append, splitOnChar_single _ a ha,
        splitOnChar_single _ b hb]
    rw [hL, dirGetFold_append, dirGetFold_single, hseg]
    rfl

/-- Witness for C10 on `demoDir`: `a;1` exists and contains `b` with cycle
2, yet `get("a/b", cycle=2)` fails with `KeyError` on segment `a`. -/
theorem dirget_cycle_every_segment_witness :
    (dirGet demoDir (['a'] ++ ('/') :: ['b']) (some 2) =
      (dirGetSeg demoDir ['a'] (some 2)).bind
        (fun o => dirGetSeg o ['b'] (some 2))) ∧
    (dirGet (.dir [(⟨['a'], 1⟩, .dir [(⟨['b'], 2⟩, .leaf 7)])])
        (['a'] ++ ('/') :: ['b']) (some 2) = .error (.keyError ['a'])) :=
  ⟨dirget_cycle_every_segment.1 demoDir ['a'] ['b'] 2 (by decide) (by decide),
   dirget_cycle_every_segment.2 [(⟨['a'], 1⟩, .dir [(⟨['b'], 2⟩, .leaf 7)])]
      ['a'] ['b'] 2 (by decide) (by decide) (by decide)⟩

/-- C7 counterexample: at `fTitle = "[]"` (an empty bracket pair) the
claim's one-or-more regex has no match, yet synthesis does not fail with
`MalformedStreamer` — the source's zero-or-more regex matches with an empty
counter name and synthesis succeeds (producing an op with an empty counter
field). -/
theorem basicpointer_empty_bracket_counterexample :
    findBracketPlus ['[', ']'] = none ∧
    synthBasicPointer ⟨['x'], ['[', ']'], 41⟩ ≠ .error .valueError ∧
    synthBasicPointer ⟨['x'], ['[', ']'], 41⟩ = .ok ⟨['x'], [], .i1⟩ := by
  refine ⟨rfl, ?_, rfl⟩
  intro hcon
  rw [show synthBasicPointer ⟨['x'], ['[', ']'], 41⟩ =
      Except.ok ⟨['x'], [], BPDty.i1⟩ from rfl] at hcon
  exact Except.noConfusion hcon

/-- C7 as amended: the counter name is extracted by the source's
zero-or-more regex (the group of the leftmost bracket pair, possibly
empty); synthesis fails with `MalformedStreamer` iff `fTitle` contains no
bracket pair at all; on success the generated code reads a 1-byte marker
and then `self.<counter>` elements of the dtype implied by
`fType - kOffsetP`, advancing the cursor by `1 + n * size`. -/
theorem basicpointer_synthesis_star_regex :
    (∀ e : SElem,
      synthBasicPointer e = .error .valueError ↔
        findBracket e.fTitle = none) ∧
    (∀ (e : SElem) (counter : List Char) (d : BPDty),
      findBracket e.fTitle = some counter →
      kOffsetP < e.fType → e.fType < kOffsetP + 20 →
      bpDtype (e.fType - kOffsetP) = some d →
      synthBasicPointer e = .ok ⟨e.fName, counter, d⟩ ∧
      ∀ (obj : List (List Char × Nat)) (s : Src) (i : Nat) (n : Nat),
        obj.lookup counter = some n →
        runBPOp ⟨e.fName, counter, d⟩ obj s i =
          .ok ((e.fName,
            (List.range n).map (fun j =>
              readBE s (i + 1 + j * bpDtySize d) (bpDtySize d))),
            i + 1 + n * bpDtySize d)) := by
  constructor
  · intro e
    unfold synthBasicPointer
    cases hfb : findBracket e.fTitle with
    | none => simp
    | some counter =>
      dsimp only
      constructor
      · intro hcon
        exfalso
        split_ifs at hcon with hr
        · cases hbd : bpDtype (e.fType - kOffsetP) with
          | none =>
            rw [hbd] at hcon
            dsimp only at hcon
            exact PyErr.noConfusion (Except.error.inj hcon)
          | some dd =>
            rw [hbd] at hcon
            exact Except.noConfusion hcon
        · exact PyErr.noConfusion (Except.error.inj hcon)
      · intro hcon
        exact Option.noConfusion hcon
  · intro e counter d hfb h1 h2 hbd
    constructor
    · unfold synthBasicPointer
      rw [hfb]
      dsimp only
      rw [if_pos ⟨h1, h2⟩, hbd]
    · intro obj s i n hl
      unfold runBPOp
      rw [hl]

/-- Witness for C7 on `fTitle = "[n]"`, `fType = 58` (`kBool` after the
`kOffsetP` shift, 1-byte elements) and an object whose counter `n` is 2. -/
theorem basicpointer_synthesis_star_regex_witness :
    (synthBasicPointer ⟨['x'], ['[', 'n', ']'], 58⟩ = .error .valueError ↔
      findBracket ['[', 'n', ']'] = none) ∧
    synthBasicPointer ⟨['x'], ['[', 'n', ']'], 58⟩ =
      .ok ⟨['x'], ['n'], .boolD⟩ ∧
    runBPOp ⟨['x'], ['n'], .boolD⟩ [(['n'], 2)] (srcOf [9, 1, 0]) 0 =
      .ok ((['x'], (List.range 2).map (fun j =>
        readBE (srcOf [9, 1, 0]) (0 + 1 + j * bpDtySize .boolD)
          (bpDtySize .boolD))), 0 + 1 + 2 * bpDtySize .boolD) := by
  have h := basicpointer_synthesis_star_regex.2 ⟨['x'], ['[', 'n', ']'], 58⟩
    ['n'] .boolD rfl (by decide) (by decide) rfl
  exact ⟨basicpointer_synthesis_star_regex.1 ⟨['x'], ['[', 'n', ']'], 58⟩,
    h.1, h.2 [(['n'], 2)] (srcOf [9, 1, 0]) 0 2 rfl⟩

/-- The coalesced offset-based decode equals the field-by-field decode:
the raw pattern of every field is the same whether the fields are read in
one `cursor.fields` call or one at a time. -/
theorem batchDecode_eq_seqDecode (s : Src) (ls : List FmtLetter) :
    ∀ i : Nat, batchDecode s i ls = seqDecode s i ls := by
  induction ls with
  | nil => intro i; rfl
  | cons l ls ih =>
    intro i
    simp only [batchDecode, letterOffsets, seqDecode, List.zip_cons_cons,
      List.map_cons, Nat.add_zero]
    congr 1
    rw [← ih (i + letterSize l)]
    simp only [batchDecode, List.zip_map_right, List.map_map]
    apply List.map_congr_left
    intro lo _
    simp [Function.comp, Nat.add_assoc]

/-- Format sizes add along concatenation. -/
theorem lettersSize_append (l1 l2 : List FmtLetter) :
    lettersSize (l1 ++ l2) = lettersSize l1 + lettersSize l2 := by
  induction l1 with
  | nil => simp [lettersSize]
  | cons l ls ih => simp [lettersSize, ih, Nat.add_assoc]

/-- Sequential decode splits along concatenation. -/
theorem seqDecode_append (s : Src) (l1 l2 : List FmtLetter) :
    ∀ i : Nat, seqDecode s i (l1 ++ l2) =
      seqDecode s i l1 ++ seqDecode s (i + lettersSize l1) l2 := by
  induction l1 with
  | nil => intro i; simp [seqDecode, lettersSize]
  | cons l ls ih =>
    intro i
    simp only [List.cons_append, seqDecode, lettersSize, List.append_eq]
    rw [ih (i + letterSize l), Nat.add_assoc]

/-- Appending one letter to a batch decodes the same fields plus the new
field at the end of the consumed bytes. -/
theorem batchDecode_snoc (s : Src) (i : Nat) (ls : List FmtLetter)
    (l : FmtLetter) :
    batchDecode s i (ls ++ [l]) =
      batchDecode s i ls ++
        [(l, readBE s (i + lettersSize ls) (letterSize l))] := by
  rw [batchDecode_eq_seqDecode, batchDecode_eq_seqDecode,
    seqDecode_append]
  rfl

/-- A batch decode yields one value per letter. -/
theorem batchDecode_length (s : Src) (i : Nat) (ls : List FmtLetter) :
    (batchDecode s i ls).length = ls.length := by
  rw [batchDecode_eq_seqDecode]
  induction ls generalizing i with
  | nil => rfl
  | cons l ls ih => simp [seqDecode, ih]

/-- Running the per-element (unbatched) ops is the direct denotation of the
element list. -/
theorem emitIndiv_denote (ro : Nat → Src → Nat → Assigns × Nat)
    (elems : List SynElem) :
    ∀ (s : Src) (i : Nat),
      runEmit ro (emitIndiv elems) s i = denoteElems ro elems s i := by
  induction elems with
  | nil => intro s i; rfl
  | cons el rest ih =>
    intro s i
    cases el with
    | basic nm t al =>
      simp only [emitIndiv, denoteElems]
      by_cases hal : al = 0
      · rw [if_pos hal, if_pos hal]
        cases hsl : scalarLetter t with
        | none => rfl
        | some l =>
          dsimp only
          cases hrest : emitIndiv rest with
          | error e =>
            have hd := ih s (i + letterSize l)
            rw [hrest] at hd
            rw [← hd]
            rfl
          | ok ops =>
            have hd := ih s (i + letterSize l)
            rw [hrest] at hd
            rw [← hd]
            rfl
      · rw [if_neg hal, if_neg hal]
        rfl
    | other g =>
      simp only [emitIndiv, denoteElems]
      cases hrest : emitIndiv rest with
      | error e =>
        have hd := ih s ((ro g s i).2)
        rw [hrest] at hd
        rw [← hd]
        rfl
      | ok ops =>
        have hd := ih s ((ro g s i).2)
        rw [hrest] at hd
        rw [← hd]
        rfl

/-- Running the batched emission with pending accumulators equals the
pending batch's assignments followed by the direct denotation of the rest
(the accumulators are nonempty only while the lookahead has not flushed). -/
theorem emitGo_denote (ro : Nat → Src → Nat → Assigns × Nat)
    (elems : List SynElem) :
    ∀ (accN : List (List Char)) (accL : List FmtLetter) (s : Src) (i : Nat),
      accN.length = accL.length →
      (accN = [] ∧ accL = [] ∨ needFlush elems = false) →
      runEmit ro (emitGo accN accL elems) s i =
        (match denoteElems ro elems s (i + lettersSize accL) with
         | .error e => .error e
         | .ok r => .ok ((accN.zip (batchDecode s i accL)) ++ r.1, r.2)) := by
  induction elems with
  | nil =>
    intro accN accL s i hlen hinv
    rcases hinv with ⟨hN, hL⟩ | hflush
    · subst hN; subst hL
      rfl
    · exact absurd hflush (by simp [needFlush])
  | cons el rest ih =>
    intro accN accL s i hlen hinv
    cases el with
    | basic nm t al =>
      simp only [emitGo, denoteElems]
      by_cases hal : al = 0
      · rw [if_pos hal, if_pos hal]
        cases hsl : scalarLetter t with
        | none => rfl
        | some l =>
          dsimp only
          have hI : i + lettersSize (accL ++ [l]) =
              i + lettersSize accL + letterSize l := by
            rw [lettersSize_append]
            have h2 : lettersSize [l] = letterSize l := by
              simp [lettersSize]
            omega
          by_cases hfl : needFlush rest = true
          · rw [if_pos hfl]
            have hih := ih [] [] s (i + lettersSize accL + letterSize l)
              rfl (Or.inl ⟨rfl, rfl⟩)
            simp only [lettersSize, Nat.add_zero, List.zip_nil_left,
              List.nil_append] at hih
            cases hrest : emitGo [] [] rest with
            | error e =>
              rw [hrest] at hih
              dsimp only [runEmit] at hih
              cases hd : denoteElems ro rest s
                  (i + lettersSize accL + letterSize l) with
              | error e2 =>
                rw [hd] at hih
                dsimp only at hih
                exact hih
              | ok r =>
                rw [hd] at hih
                exact absurd hih (by simp)
            | ok ops =>
              rw [hrest] at hih
              dsimp only [runEmit] at hih
              cases hd : denoteElems ro rest s
                  (i + lettersSize accL + letterSize l) with
              | error e2 =>
                rw [hd] at hih
                exact absurd hih (by simp)
              | ok r =>
                rw [hd] at hih
                dsimp only at hih
                have hops := Except.ok.inj hih
                dsimp only [runEmit, Except.map, runOps, runOp]
                rw [hI, hops, batchDecode_snoc,
                  List.zip_append (by rw [batchDecode_length]; exact hlen)]
                simp [List.append_assoc]
          · rw [if_neg hfl]
            have hflf : needFlush rest = false := by
              cases hnf : needFlush rest
              · rfl
              · exact absurd hnf hfl
            have hih := ih (accN ++ [nm]) (accL ++ [l]) s i
              (by simp [hlen]) (Or.inr hflf)
            rw [hih, hI]
            cases hd : denoteElems ro rest s
                (i + lettersSize accL + letterSize l) with
            | error e2 => rfl
            | ok r =>
              dsimp only
              rw [batchDecode_snoc,
                List.zip_append (by rw [batchDecode_length]; exact hlen)]
              simp [List.append_assoc]
      · rw [if_neg hal, if_neg hal]
        rfl
    | other g =>
      have hacc : accN = [] ∧ accL = [] := by
        rcases hinv with h | h
        · exact h
        · exact absurd h (by simp [needFlush])
      obtain ⟨hN, hL⟩ := hacc
      subst hN; subst hL
      simp only [emitGo, denoteElems, lettersSize, Nat.add_zero,
        List.zip_nil_left, List.nil_append]
      have hih := ih [] [] s ((ro g s i).2) rfl (Or.inl ⟨rfl, rfl⟩)
      simp only [lettersSize, Nat.add_zero, List.zip_nil_left,
        List.nil_append] at hih
      cases hrest : emitGo [] [] rest with
      | error e =>
        rw [hrest] at hih
        dsimp only [runEmit] at hih
        cases hd : denoteElems ro rest s ((ro g s i).2) with
        | error e2 =>
          rw [hd] at hih
          dsimp only at hih
          exact hih
        | ok r =>
          rw [hd] at hih
          exact absurd hih (by simp)
      | ok ops =>
        rw [hrest] at hih
        dsimp only [runEmit] at hih
        cases hd : denoteElems ro rest s ((ro g s i).2) with
        | error e2 =>
          rw [hd] at hih
          exact absurd hih (by simp)
        | ok r =>
          rw [hd] at hih
          dsimp only at hih
          have hops := Except.ok.inj hih
          dsimp only [runEmit, Except.map, runOps, runOp]
          rw [hops]

/-- C8: the coalesced multi-field decode emitted for a run of consecutive
scalar `BasicType` elements (flushed when the next element is not a scalar
`BasicType` or the run reaches the last element) assigns to the named
fields exactly the same values, consumes exactly the same bytes, and fails
in exactly the same way, as decoding each scalar element individually in
order — over every element list, byte source, start offset, and semantics
of the non-basic ops. -/
theorem basic_batch_coalescing_equiv
    (ro : Nat → Src → Nat → Assigns × Nat) (elems : List SynElem)
    (s : Src) (i : Nat) :
    runEmit ro (emitOps elems) s i = runEmit ro (emitIndiv elems) s i := by
  rw [emitIndiv_denote]
  have h := emitGo_denote ro elems [] [] s i rfl (Or.inl ⟨rfl, rfl⟩)
  simp only [lettersSize, Nat.add_zero, List.zip_nil_left, List.nil_append] at h
  rw [emitOps, h]
  cases hd : denoteElems ro elems s i with
  | error e => rfl
  | ok r => rfl
